import Mathlib

/-!
Shallow embedding of `src/prompts/generate_tokens.py`.

The script is a synthetic-text generator: `generate_text` builds a string of
roughly `target_tokens * 4` characters from two fixed pools (prose paragraphs
and fenced code snippets), and `main` is a thin command-line wrapper around it.

Modelling conventions:
* Python strings are Lean `String`s; Python `len` counts code points, as does
  `String.length`.
* `random.choice(pool)` is modelled by an oracle stream `picks : Nat → Nat` of
  arbitrary natural numbers; the k-th call to `random.choice` uses `picks k`
  reduced modulo the pool size, so every sequence of uniform draws corresponds
  to some stream and conversely.
* Python slicing `s[:k]` (with a possibly negative `k`, since `target_tokens`
  is a signed integer) is modelled by `pySliceTo`.
* The `while` loops are modelled by well-founded recursion on the remaining
  character budget.
-/

namespace GenerateTokens

def paragraphs : List String := [
  "Искусственный интеллект представляет собой область компьютерных наук, которая занимается созданием систем, способных выполнять задачи, требующие человеческого интеллекта. Это включает машинное обучение, обработку естественного языка, компьютерное зрение и робототехнику. Современные модели ИИ основаны на нейронных сетях с миллиардами параметров.",
  "The development of large language models has revolutionized natural language processing. These models are trained on vast amounts of text data and can generate human-like responses, translate languages, write code, and answer complex questions. The architecture typically uses transformer networks with attention mechanisms.",
  "Программирование на языке Go отличается простотой и эффективностью. Go был разработан в Google для создания надежных и масштабируемых систем. Ключевые особенности включают горутины для конкурентности, сборку мусора, статическую типизацию и быструю компиляцию.",
  "REST API является архитектурным стилем для создания веб-сервисов. Основные принципы включают использование HTTP методов (GET, POST, PUT, DELETE), статусных кодов, и представление ресурсов в формате JSON или XML.",
  "База данных PostgreSQL является мощной объектно-реляционной системой управления базами данных с открытым исходным кодом. Она поддерживает сложные запросы, транзакции ACID, индексы различных типов и полнотекстовый поиск.",
  "Docker контейнеризация позволяет упаковывать приложения вместе со всеми зависимостями в изолированные контейнеры. Это обеспечивает консистентность между средами разработки и продакшена.",
  "Машинное обучение разделяется на три основных типа: обучение с учителем, обучение без учителя и обучение с подкреплением. В обучении с учителем модель обучается на размеченных данных.",
  "Cybersecurity encompasses the practices and technologies designed to protect systems, networks, and data from digital attacks. Key areas include network security, application security, and endpoint protection.",
  "Микросервисная архитектура разбивает приложение на небольшие независимые сервисы, каждый из которых выполняет одну бизнес-функцию. Сервисы общаются через API или очереди сообщений.",
  "Git является распределенной системой контроля версий, которая отслеживает изменения в файлах. Основные концепции включают коммиты, ветки, слияния и удаленные репозитории."
]

def code_examples : List String := [
  "```go\nfunc main() \x7b\n    http.HandleFunc(\"/api/users\", handleUsers)\n    log.Fatal(http.ListenAndServe(\":8080\", nil))\n\x7d\n```",
  "```python\ndef process(data: list) -> dict:\n    return \x7b\"count\": len(data), \"items\": data\x7d\n```",
  "```sql\nSELECT name, COUNT(*) as cnt FROM users GROUP BY name;\n```"
]

/-- Model of `random.choice(pool)`: the oracle value `k` is reduced modulo the
pool size, picking an arbitrary in-range element. -/
def choice (pool : List String) (k : Nat) : String :=
  pool.getD (k % pool.length) ""

/-- Model of Python `s[:k]` for a signed stop index `k`: a non-negative stop
keeps the first `k` code points (clamped to the length); a negative stop keeps
the first `len(s) + k` code points (clamped to `0`). -/
def pySliceTo (s : String) (k : Int) : String :=
  if k < 0 then ⟨s.data.take (s.length - (-k).toNat)⟩
  else ⟨s.data.take k.toNat⟩

/-- The small-target `while` loop of `generate_text`
(`while len(output) < target_chars: output += " " + random.choice(paragraphs)`);
`k` is the index of the next unconsumed oracle value. -/
def smallLoop (target_chars : Int) (picks : Nat → Nat) (k : Nat) (output : String) : String :=
  if (output.length : Int) < target_chars then
    smallLoop target_chars picks (k + 1) (output ++ " " ++ choice paragraphs (picks k))
  else output
termination_by (target_chars - output.length).toNat
decreasing_by
  simp only [String.length_append]
  have hsp : " ".length = 1 := rfl
  omega

/-- One iteration of the inner `for i in range(5)` loop of the large-target
path, acting on the state (next oracle index, accumulated output). -/
def innerStep (target_chars : Int) (picks : Nat → Nat) (i : Nat) (s : Nat × String) :
    Nat × String :=
  let out := s.2 ++ choice paragraphs (picks s.1) ++ "\n\n"
  let k := s.1 + 1
  if i % 2 = 0 ∧ (out.length : Int) < target_chars then
    (k + 1, out ++ choice code_examples (picks k) ++ "\n\n")
  else (k, out)

/-- One iteration of the outer `while` loop of the large-target path: append
the section heading for section `n`, then run the inner loop five times. -/
def sectionStep (target_chars : Int) (picks : Nat → Nat) (k n : Nat) (out : String) :
    Nat × String :=
  (List.range 5).foldl (fun s i => innerStep target_chars picks i s)
    (k, out ++ "\n## Section " ++ toString n ++ "\n\n")

theorem innerStep_length (target_chars : Int) (picks : Nat → Nat) (i : Nat) (s : Nat × String) :
    s.2.length < (innerStep target_chars picks i s).2.length := by
  unfold innerStep
  dsimp only
  have hnn : ("\n\n" : String).length = 2 := rfl
  split <;> simp [String.length_append] <;> omega

theorem foldl_innerStep_length (target_chars : Int) (picks : Nat → Nat) (l : List Nat)
    (s : Nat × String) :
    s.2.length ≤ ((l.foldl (fun s i => innerStep target_chars picks i s)) s).2.length := by
  induction l generalizing s with
  | nil => exact Nat.le_refl _
  | cons i l ih =>
    exact Nat.le_trans (Nat.le_of_lt (innerStep_length target_chars picks i s)) (ih _)

theorem sectionStep_length (target_chars : Int) (picks : Nat → Nat) (k n : Nat) (out : String) :
    out.length < (sectionStep target_chars picks k n out).2.length := by
  unfold sectionStep
  refine Nat.lt_of_lt_of_le ?_ (foldl_innerStep_length target_chars picks (List.range 5) _)
  have hh : ("\n## Section " : String).length = 12 := rfl
  simp [String.length_append]
  omega

/-- The outer `while` loop of the large-target path of `generate_text`;
`k` is the next oracle index and `n` the current section number. -/
def largeLoop (target_chars : Int) (picks : Nat → Nat) (k n : Nat) (out : String) : String :=
  if (out.length : Int) < target_chars then
    let s := sectionStep target_chars picks k n out
    largeLoop target_chars picks s.1 (n + 1) s.2
  else out
termination_by (target_chars - out.length).toNat
decreasing_by
  have := sectionStep_length target_chars picks k n out
  omega

/-- `generate_text(target_tokens)` from the source, with the random draws made
explicit as the oracle stream `picks`. -/
def generate_text (target_tokens : Int) (picks : Nat → Nat) : String :=
  let target_chars := target_tokens * 4
  if target_tokens ≤ 100 then
    pySliceTo (smallLoop target_chars picks 1 (choice paragraphs (picks 0))) target_chars
  else
    largeLoop target_chars picks 0 1 "# Technical Documentation\n\n"

/-- Result of one run of the command-line entry point: the process exit code
and the text written to standard output and standard error. -/
structure MainResult where
  exitCode : Nat
  stdout : String
  stderr : String
deriving DecidableEq

/-- `estimated_tokens = char_count // 4` from `main` (line 95 of the source). -/
def estimated_tokens (char_count : Nat) : Nat := char_count / 4

/-- `main()` from the source. `argv` is `sys.argv` (program name included) and
`parseInt` models the Python builtin `int` (library code outside this
repository, so it is kept as a parameter: it returns `none` exactly when
`int(...)` raises `ValueError`). Each `print` appends a newline. -/
def main (argv : List String) (parseInt : String → Option Int) (picks : Nat → Nat) :
    MainResult :=
  if argv.length < 2 then
    ⟨1, "", "Usage: python3 generate_tokens.py <token_count>\nExample: python3 generate_tokens.py 50000\n"⟩
  else
    match parseInt (argv.getD 1 "") with
    | none =>
      ⟨1, "", "Error: \x27" ++ argv.getD 1 "" ++ "\x27 is not a valid number\n"⟩
    | some target_tokens =>
      let output := generate_text target_tokens picks
      let char_count := output.length
      ⟨0, output ++ "\n",
        "\n---\nTarget: " ++ toString target_tokens ++ " tokens | Actual: ~" ++
          toString (estimated_tokens char_count) ++ " tokens (" ++
          toString char_count ++ " chars)\n"⟩

/-! ### Fuel-indexed variants of the two `while` loops

Used to express termination: the fueled interpreter returns `none` when the
fuel runs out, and the termination theorem exhibits a fuel on which it
converges to the value of the loop. -/

def smallLoopF : Nat → Int → (Nat → Nat) → Nat → String → Option String
  | 0, _, _, _, _ => none
  | fuel + 1, target_chars, picks, k, output =>
    if (output.length : Int) < target_chars then
      smallLoopF fuel target_chars picks (k + 1) (output ++ " " ++ choice paragraphs (picks k))
    else some output

def largeLoopF : Nat → Int → (Nat → Nat) → Nat → Nat → String → Option String
  | 0, _, _, _, _, _ => none
  | fuel + 1, target_chars, picks, k, n, out =>
    if (out.length : Int) < target_chars then
      let s := sectionStep target_chars picks k n out
      largeLoopF fuel target_chars picks s.1 (n + 1) s.2
    else some out

def generate_textF (fuel : Nat) (target_tokens : Int) (picks : Nat → Nat) : Option String :=
  let target_chars := target_tokens * 4
  if target_tokens ≤ 100 then
    (smallLoopF fuel target_chars picks 1 (choice paragraphs (picks 0))).map
      (fun out => pySliceTo out target_chars)
  else
    largeLoopF fuel target_chars picks 0 1 "# Technical Documentation\n\n"

/-! ### Chunk-level instrumentation of the large-target path

The large-target path only ever appends whole pieces to the accumulator: the
fixed header, section heading lines, paragraphs, and code snippets.  The
instrumented loops below rebuild the same string while also recording the
sequence of appended pieces, which lets us speak about the section headings
occurring in the output. -/

inductive Chunk where
  | header
  | heading (n : Nat)
  | para (s : String)
  | code (s : String)
deriving DecidableEq

/-- The exact text each piece contributes to the output. -/
def renderChunk : Chunk → String
  | .header => "# Technical Documentation\n\n"
  | .heading n => "\n## Section " ++ toString n ++ "\n\n"
  | .para s => s ++ "\n\n"
  | .code s => s ++ "\n\n"

def renderAll : List Chunk → String
  | [] => ""
  | c :: cs => renderChunk c ++ renderAll cs

/-- The section numbers of the heading chunks, in order of occurrence. -/
def headingNums : List Chunk → List Nat
  | [] => []
  | Chunk.heading n :: cs => n :: headingNums cs
  | _ :: cs => headingNums cs

/-- `innerStep` extended to record the appended chunks. -/
def innerStepC (target_chars : Int) (picks : Nat → Nat) (i : Nat)
    (s : Nat × String × List Chunk) : Nat × String × List Chunk :=
  let out := s.2.1 ++ choice paragraphs (picks s.1) ++ "\n\n"
  let cs := s.2.2 ++ [Chunk.para (choice paragraphs (picks s.1))]
  let k := s.1 + 1
  if i % 2 = 0 ∧ (out.length : Int) < target_chars then
    (k + 1, out ++ choice code_examples (picks k) ++ "\n\n",
      cs ++ [Chunk.code (choice code_examples (picks k))])
  else (k, out, cs)

/-- `sectionStep` extended to record the appended chunks. -/
def sectionStepC (target_chars : Int) (picks : Nat → Nat) (k n : Nat) (out : String)
    (cs : List Chunk) : Nat × String × List Chunk :=
  (List.range 5).foldl (fun s i => innerStepC target_chars picks i s)
    (k, out ++ "\n## Section " ++ toString n ++ "\n\n", cs ++ [Chunk.heading n])

theorem innerStepC_proj (target_chars : Int) (picks : Nat → Nat) (i : Nat)
    (s : Nat × String × List Chunk) :
    ((innerStepC target_chars picks i s).1, (innerStepC target_chars picks i s).2.1) =
      innerStep target_chars picks i (s.1, s.2.1) := by
  unfold innerStepC innerStep
  dsimp only
  split <;> rfl

theorem foldl_innerStepC_proj (target_chars : Int) (picks : Nat → Nat) (l : List Nat)
    (s : Nat × String × List Chunk) :
    (((l.foldl (fun s i => innerStepC target_chars picks i s)) s).1,
      ((l.foldl (fun s i => innerStepC target_chars picks i s)) s).2.1) =
      (l.foldl (fun s i => innerStep target_chars picks i s)) (s.1, s.2.1) := by
  induction l generalizing s with
  | nil => rfl
  | cons i l ih =>
    simp only [List.foldl_cons]
    rw [ih, innerStepC_proj]

theorem sectionStepC_proj (target_chars : Int) (picks : Nat → Nat) (k n : Nat) (out : String)
    (cs : List Chunk) :
    ((sectionStepC target_chars picks k n out cs).1,
      (sectionStepC target_chars picks k n out cs).2.1) =
      sectionStep target_chars picks k n out := by
  unfold sectionStepC sectionStep
  exact foldl_innerStepC_proj target_chars picks (List.range 5) _

/-- `largeLoop` extended to record the appended chunks (it returns only the
recorded chunk list; the string component evolves exactly as in
`largeLoop`, as shown by the projection lemmas). -/
def largeLoopC (target_chars : Int) (picks : Nat → Nat) (k n : Nat) (out : String)
    (cs : List Chunk) : List Chunk :=
  if (out.length : Int) < target_chars then
    let s := sectionStepC target_chars picks k n out cs
    largeLoopC target_chars picks s.1 (n + 1) s.2.1 s.2.2
  else cs
termination_by (target_chars - out.length).toNat
decreasing_by
  have h1 := sectionStep_length target_chars picks k n out
  have h2 := congrArg Prod.snd (sectionStepC_proj target_chars picks k n out cs)
  dsimp only at h2
  rw [h2]
  omega

/-! ### Verified properties -/

theorem paragraphs_no_newline : ∀ p ∈ paragraphs, ('\n' : Char) ∉ p.data := by decide

theorem choice_paragraphs_mem (k : Nat) : choice paragraphs k ∈ paragraphs := by
  unfold choice
  have h : k % paragraphs.length < paragraphs.length := Nat.mod_lt _ (by decide)
  rw [List.getD_eq_getElem?_getD, List.getElem?_eq_getElem h]
  exact List.getElem_mem h


theorem smallLoop_ge (tc : Int) (picks : Nat → Nat) (k : Nat) (out : String) :
    tc ≤ ((smallLoop tc picks k out).length : Int) := by
  induction k, out using smallLoop.induct tc picks with
  | case1 k out h ih => rw [smallLoop, if_pos h]; exact ih
  | case2 k out h => rw [smallLoop, if_neg h]; omega

theorem largeLoop_ge (tc : Int) (picks : Nat → Nat) (k n : Nat) (out : String) :
    tc ≤ ((largeLoop tc picks k n out).length : Int) := by
  induction k, n, out using largeLoop.induct tc picks with
  | case1 k n out h s ih =>
    rw [largeLoop, if_pos h]
    exact ih
  | case2 k n out h => rw [largeLoop, if_neg h]; omega

theorem generate_text_small_len (t : Int) (picks : Nat → Nat) (h0 : 0 < t) (h1 : t ≤ 100) :
    ((generate_text t picks).length : Int) = t * 4 := by
  have hge := smallLoop_ge (t * 4) picks 1 (choice paragraphs (picks 0))
  rw [← String.length_data] at hge
  unfold generate_text pySliceTo
  rw [if_pos h1, if_neg (by omega : ¬ (t * 4 : Int) < 0)]
  simp only [String.length_mk, List.length_take]
  omega



/-- `p` is a prefix of `s` (as sequences of code points). -/
def beginsWith (p s : String) : Prop := ∃ tail : String, p ++ tail = s

theorem beginsWith_refl (s : String) : beginsWith s s := ⟨"", String.append_empty s⟩

theorem beginsWith_append (p tail : String) : beginsWith p (p ++ tail) := ⟨tail, rfl⟩

theorem beginsWith_trans {a b c : String} (h1 : beginsWith a b) (h2 : beginsWith b c) :
    beginsWith a c := by
  obtain ⟨t1, rfl⟩ := h1
  obtain ⟨t2, rfl⟩ := h2
  exact ⟨t1 ++ t2, (String.append_assoc a t1 t2).symm⟩

theorem beginsWith_append_right {a b : String} (c : String) (h : beginsWith a b) :
    beginsWith a (b ++ c) :=
  beginsWith_trans h (beginsWith_append b c)

theorem innerStep_beginsWith (tc : Int) (picks : Nat → Nat) (i : Nat) (s : Nat × String) :
    beginsWith s.2 (innerStep tc picks i s).2 := by
  unfold innerStep
  dsimp only
  split
  · exact beginsWith_append_right _ (beginsWith_append_right _
      (beginsWith_append_right _ (beginsWith_append _ _)))
  · exact beginsWith_append_right _ (beginsWith_append _ _)

theorem foldl_innerStep_beginsWith (tc : Int) (picks : Nat → Nat) (l : List Nat)
    (s : Nat × String) :
    beginsWith s.2 ((l.foldl (fun s i => innerStep tc picks i s)) s).2 := by
  induction l generalizing s with
  | nil => exact beginsWith_refl _
  | cons i l ih =>
    exact beginsWith_trans (innerStep_beginsWith tc picks i s) (ih _)

theorem sectionStep_beginsWith (tc : Int) (picks : Nat → Nat) (k n : Nat) (out : String) :
    beginsWith out (sectionStep tc picks k n out).2 := by
  unfold sectionStep
  refine beginsWith_trans ?_ (foldl_innerStep_beginsWith tc picks (List.range 5) _)
  exact beginsWith_append_right _ (beginsWith_append_right _ (beginsWith_append _ _))

theorem largeLoop_beginsWith (tc : Int) (picks : Nat → Nat) (k n : Nat) (out : String) :
    beginsWith out (largeLoop tc picks k n out) := by
  induction k, n, out using largeLoop.induct tc picks with
  | case1 k n out h s ih =>
    rw [largeLoop, if_pos h]
    exact beginsWith_trans (sectionStep_beginsWith tc picks k n out) ih
  | case2 k n out h => rw [largeLoop, if_neg h]; exact beginsWith_refl _

theorem smallLoop_no_newline (tc : Int) (picks : Nat → Nat) (k : Nat) (out : String) :
    ('\n' : Char) ∉ out.data → ('\n' : Char) ∉ (smallLoop tc picks k out).data := by
  induction k, out using smallLoop.induct tc picks with
  | case1 k out hc ih =>
    intro h
    rw [smallLoop, if_pos hc]
    apply ih
    simp only [String.data_append, List.mem_append]
    push_neg
    refine ⟨⟨h, by decide⟩, paragraphs_no_newline _ (choice_paragraphs_mem _)⟩
  | case2 k out hc =>
    intro h
    rwa [smallLoop, if_neg hc]

theorem smallLoopF_conv (tc : Int) (picks : Nat → Nat) (k : Nat) (out : String) :
    ∃ fuel, smallLoopF fuel tc picks k out = some (smallLoop tc picks k out) := by
  induction k, out using smallLoop.induct tc picks with
  | case1 k out h ih =>
    obtain ⟨fuel, hf⟩ := ih
    refine ⟨fuel + 1, ?_⟩
    rw [smallLoop, if_pos h, smallLoopF, if_pos h]
    exact hf
  | case2 k out h =>
    refine ⟨1, ?_⟩
    rw [smallLoopF, if_neg h, smallLoop, if_neg h]

theorem largeLoopF_conv (tc : Int) (picks : Nat → Nat) (k n : Nat) (out : String) :
    ∃ fuel, largeLoopF fuel tc picks k n out = some (largeLoop tc picks k n out) := by
  induction k, n, out using largeLoop.induct tc picks with
  | case1 k n out h s ih =>
    obtain ⟨fuel, hf⟩ := ih
    refine ⟨fuel + 1, ?_⟩
    rw [largeLoop, if_pos h, largeLoopF, if_pos h]
    exact hf
  | case2 k n out h =>
    refine ⟨1, ?_⟩
    rw [largeLoopF, if_neg h, largeLoop, if_neg h]


theorem renderAll_append (cs ds : List Chunk) :
    renderAll (cs ++ ds) = renderAll cs ++ renderAll ds := by
  induction cs with
  | nil => rw [List.nil_append, renderAll, String.empty_append]
  | cons c cs ih => rw [List.cons_append, renderAll, renderAll, ih, String.append_assoc]

theorem headingNums_append (cs ds : List Chunk) :
    headingNums (cs ++ ds) = headingNums cs ++ headingNums ds := by
  induction cs with
  | nil => rfl
  | cons c cs ih => cases c <;> simp [headingNums, ih]

theorem innerStepC_spec (tc : Int) (picks : Nat → Nat) (i : Nat) (k : Nat) (out : String)
    (cs : List Chunk) (h : out = renderAll cs) :
    (innerStepC tc picks i (k, out, cs)).2.1 = renderAll (innerStepC tc picks i (k, out, cs)).2.2 ∧
      headingNums (innerStepC tc picks i (k, out, cs)).2.2 = headingNums cs := by
  unfold innerStepC
  dsimp only
  split
  · constructor
    · rw [renderAll_append, renderAll_append, h]
      simp [renderAll, renderChunk, String.append_assoc]
    · rw [headingNums_append, headingNums_append]
      simp [headingNums]
  · constructor
    · rw [renderAll_append, h]
      simp [renderAll, renderChunk, String.append_assoc]
    · rw [headingNums_append]
      simp [headingNums]

theorem foldl_innerStepC_spec (tc : Int) (picks : Nat → Nat) (l : List Nat) :
    ∀ (k : Nat) (out : String) (cs : List Chunk), out = renderAll cs →
      ((l.foldl (fun s i => innerStepC tc picks i s) (k, out, cs)).2.1 =
          renderAll ((l.foldl (fun s i => innerStepC tc picks i s) (k, out, cs)).2.2) ∧
        headingNums ((l.foldl (fun s i => innerStepC tc picks i s) (k, out, cs)).2.2) =
          headingNums cs) := by
  induction l with
  | nil => intro k out cs h; exact ⟨h, rfl⟩
  | cons i l ih =>
    intro k out cs h
    simp only [List.foldl_cons]
    obtain ⟨h1, h2⟩ := innerStepC_spec tc picks i k out cs h
    have h3 := ih (innerStepC tc picks i (k, out, cs)).1
      (innerStepC tc picks i (k, out, cs)).2.1 (innerStepC tc picks i (k, out, cs)).2.2 h1
    exact ⟨h3.1, h3.2.trans h2⟩

theorem sectionStepC_spec (tc : Int) (picks : Nat → Nat) (k n : Nat) (out : String)
    (cs : List Chunk) (h : out = renderAll cs) :
    (sectionStepC tc picks k n out cs).2.1 = renderAll (sectionStepC tc picks k n out cs).2.2 ∧
      headingNums (sectionStepC tc picks k n out cs).2.2 = headingNums cs ++ [n] := by
  unfold sectionStepC
  have h' : out ++ "\n## Section " ++ toString n ++ "\n\n" =
      renderAll (cs ++ [Chunk.heading n]) := by
    rw [renderAll_append, h]
    simp [renderAll, renderChunk, String.append_assoc]
  have h3 := foldl_innerStepC_spec tc picks (List.range 5) k _ _ h'
  refine ⟨h3.1, ?_⟩
  rw [h3.2, headingNums_append]
  rfl

theorem largeLoopC_spec (tc : Int) (picks : Nat → Nat) (k n : Nat) (out : String)
    (cs : List Chunk) :
    out = renderAll cs →
      (largeLoop tc picks k n out = renderAll (largeLoopC tc picks k n out cs) ∧
        ∃ m, headingNums (largeLoopC tc picks k n out cs) =
          headingNums cs ++ List.range' n m) := by
  induction k, n, out, cs using largeLoopC.induct tc picks with
  | case1 k n out cs hc s ih =>
    intro h
    obtain ⟨h1, h2⟩ := sectionStepC_spec tc picks k n out cs h
    rw [largeLoop, if_pos hc, largeLoopC, if_pos hc]
    have hproj := sectionStepC_proj tc picks k n out cs
    have hfst : (sectionStep tc picks k n out).1 = (sectionStepC tc picks k n out cs).1 :=
      (congrArg Prod.fst hproj).symm
    have hsnd : (sectionStep tc picks k n out).2 = (sectionStepC tc picks k n out cs).2.1 :=
      (congrArg Prod.snd hproj).symm
    dsimp only
    rw [hfst, hsnd]
    obtain ⟨e1, m, e2⟩ := ih h1
    refine ⟨e1, m + 1, ?_⟩
    rw [e2, h2, List.range'_succ]
    simp
  | case2 k n out cs hc =>
    intro h
    rw [largeLoop, if_neg hc, largeLoopC, if_neg hc]
    exact ⟨h, 0, by simp⟩


/-- Claim C1: for every `target_tokens` in `(0, 100]`, the string returned by
`generate_text` has character length exactly `target_tokens * 4` — the
small-target path truncates the accumulated paragraphs to exactly the
character budget. -/
theorem generate_text_small_exact_length (t : Int) (picks : Nat → Nat)
    (h0 : 0 < t) (h1 : t ≤ 100) :
    ((generate_text t picks).length : Int) = t * 4 :=
  generate_text_small_len t picks h0 h1

theorem generate_text_small_exact_length_witness :
    (0 : Int) < 50 ∧ (50 : Int) ≤ 100 ∧
      ((generate_text 50 (fun _ => 0)).length : Int) = 50 * 4 :=
  ⟨by decide, by decide,
    generate_text_small_exact_length 50 (fun _ => 0) (by decide) (by decide)⟩

/-- Claim C2: for every `target_tokens > 100`, the string returned by
`generate_text` has character length at least `target_tokens * 4`; no
truncation is applied on this path. -/
theorem generate_text_large_min_length (t : Int) (picks : Nat → Nat) (h : 100 < t) :
    t * 4 ≤ ((generate_text t picks).length : Int) := by
  unfold generate_text
  rw [if_neg (by omega : ¬ t ≤ 100)]
  exact largeLoop_ge (t * 4) picks 0 1 _

theorem generate_text_large_min_length_witness :
    (100 : Int) < 101 ∧ (101 : Int) * 4 ≤ ((generate_text 101 (fun _ => 0)).length : Int) :=
  ⟨by decide, generate_text_large_min_length 101 (fun _ => 0) (by decide)⟩

/-- Claim C3: for every `target_tokens ≤ 0`, the small-target loop condition is
immediately false, so `generate_text` returns one randomly chosen paragraph
subjected to the final truncation step (Python slice with stop
`target_tokens * 4`). -/
theorem generate_text_nonpositive (t : Int) (picks : Nat → Nat) (h : t ≤ 0) :
    generate_text t picks = pySliceTo (choice paragraphs (picks 0)) (t * 4) := by
  unfold generate_text
  rw [if_pos (by omega : t ≤ 100), smallLoop, if_neg (by omega :
    ¬ ((choice paragraphs (picks 0)).length : Int) < t * 4)]

theorem generate_text_nonpositive_witness :
    (0 : Int) ≤ 0 ∧ generate_text 0 (fun _ => 0) = pySliceTo (choice paragraphs 0) (0 * 4) :=
  ⟨by decide, generate_text_nonpositive 0 (fun _ => 0) (by decide)⟩

/-- Claim C4: for every integer `target_tokens` and every sequence of random
picks, `generate_text` terminates: the fueled interpreter converges, on some
finite fuel, to the value of the loops. -/
theorem generate_text_terminates (t : Int) (picks : Nat → Nat) :
    ∃ fuel, generate_textF fuel t picks = some (generate_text t picks) := by
  by_cases h : t ≤ 100
  · obtain ⟨fuel, hf⟩ := smallLoopF_conv (t * 4) picks 1 (choice paragraphs (picks 0))
    refine ⟨fuel, ?_⟩
    unfold generate_textF generate_text
    rw [if_pos h, if_pos h, hf]
    rfl
  · obtain ⟨fuel, hf⟩ := largeLoopF_conv (t * 4) picks 0 1 "# Technical Documentation\n\n"
    refine ⟨fuel, ?_⟩
    unfold generate_textF generate_text
    rw [if_neg h, if_neg h]
    exact hf

/-- Claim C5: for every `target_tokens > 100` and every sequence of random
picks, the output of `generate_text` begins with the literal line
`"# Technical Documentation"` followed by a blank line. -/
theorem generate_text_large_header (t : Int) (picks : Nat → Nat) (h : 100 < t) :
    beginsWith "# Technical Documentation\n\n" (generate_text t picks) := by
  unfold generate_text
  rw [if_neg (by omega : ¬ t ≤ 100)]
  exact largeLoop_beginsWith (t * 4) picks 0 1 _

theorem generate_text_large_header_witness :
    (100 : Int) < 101 ∧
      beginsWith "# Technical Documentation\n\n" (generate_text 101 (fun _ => 0)) :=
  ⟨by decide, generate_text_large_header 101 (fun _ => 0) (by decide)⟩

/-- Claim C6: for every `target_tokens > 100`, the output of `generate_text` is
the rendering of a sequence of appended pieces whose section-heading numbers
are exactly `1, 2, ..., m` for some `m` — strictly increasing consecutive
integers starting at 1, with no gaps. -/
theorem generate_text_sections_consecutive (t : Int) (picks : Nat → Nat) (h : 100 < t) :
    ∃ m, generate_text t picks =
        renderAll (largeLoopC (t * 4) picks 0 1 "# Technical Documentation\n\n" [Chunk.header]) ∧
      headingNums (largeLoopC (t * 4) picks 0 1 "# Technical Documentation\n\n" [Chunk.header]) =
        List.range' 1 m := by
  have h0 : "# Technical Documentation\n\n" = renderAll [Chunk.header] := by
    simp [renderAll, renderChunk]
  obtain ⟨e1, m, e2⟩ := largeLoopC_spec (t * 4) picks 0 1 _ [Chunk.header] h0
  refine ⟨m, ?_, ?_⟩
  · unfold generate_text
    rw [if_neg (by omega : ¬ t ≤ 100)]
    exact e1
  · rw [e2]
    rfl

theorem generate_text_sections_consecutive_witness :
    (100 : Int) < 101 ∧
      ∃ m, generate_text 101 (fun _ => 0) =
          renderAll (largeLoopC (101 * 4) (fun _ => 0) 0 1 "# Technical Documentation\n\n"
            [Chunk.header]) ∧
        headingNums (largeLoopC (101 * 4) (fun _ => 0) 0 1 "# Technical Documentation\n\n"
            [Chunk.header]) = List.range' 1 m :=
  ⟨by decide, generate_text_sections_consecutive 101 (fun _ => 0) (by decide)⟩

/-- Claim C7: the diagnostic estimate equals `char_count // 4` where
`char_count` is the length of the generated output, and for every
`target_tokens` in `(0, 100]` it round-trips exactly to `target_tokens`. -/
theorem estimate_roundtrip_small (t : Int) (picks : Nat → Nat) (h0 : 0 < t) (h1 : t ≤ 100) :
    estimated_tokens (generate_text t picks).length = (generate_text t picks).length / 4 ∧
      (estimated_tokens (generate_text t picks).length : Int) = t := by
  have hlen := generate_text_small_len t picks h0 h1
  refine ⟨rfl, ?_⟩
  unfold estimated_tokens
  omega

theorem estimate_roundtrip_small_witness :
    (0 : Int) < 50 ∧ (50 : Int) ≤ 100 ∧
      (estimated_tokens (generate_text 50 (fun _ => 0)).length =
          (generate_text 50 (fun _ => 0)).length / 4 ∧
        (estimated_tokens (generate_text 50 (fun _ => 0)).length : Int) = 50) :=
  ⟨by decide, by decide, estimate_roundtrip_small 50 (fun _ => 0) (by decide) (by decide)⟩

/-- Claim C8: the command-line entry point exits with status 1 and a usage
message on standard error when no positional argument is supplied, and with
status 1 and an error message naming the offending argument when it cannot be
parsed as an integer; in both cases nothing is written to standard output. -/
theorem main_error_cases (argv : List String) (parseInt : String → Option Int)
    (picks : Nat → Nat) :
    (argv.length < 2 →
      main argv parseInt picks =
        ⟨1, "", "Usage: python3 generate_tokens.py <token_count>\nExample: python3 generate_tokens.py 50000\n"⟩) ∧
    (¬ argv.length < 2 → parseInt (argv.getD 1 "") = none →
      main argv parseInt picks =
        ⟨1, "", "Error: \x27" ++ argv.getD 1 "" ++ "\x27 is not a valid number\n"⟩) := by
  constructor
  · intro h
    unfold main
    rw [if_pos h]
  · intro h hp
    unfold main
    rw [if_neg h, hp]

theorem main_error_cases_witness :
    main [] (fun _ => none) (fun _ => 0) =
      ⟨1, "",
        "Usage: python3 generate_tokens.py <token_count>\nExample: python3 generate_tokens.py 50000\n"⟩ ∧
    main ["generate_tokens.py", "abc"] (fun _ => none) (fun _ => 0) =
      ⟨1, "", "Error: \x27" ++ "abc" ++ "\x27 is not a valid number\n"⟩ :=
  ⟨(main_error_cases [] (fun _ => none) (fun _ => 0)).1 (by decide),
    (main_error_cases ["generate_tokens.py", "abc"] (fun _ => none) (fun _ => 0)).2
      (by decide) rfl⟩

/-- Claim C9: for every `target_tokens` in `(0, 100]` and every sequence of
random picks, the output of `generate_text` contains no newline character:
every paragraph in the pool is a single-line string and the small-target path
joins them with single spaces. -/
theorem generate_text_small_no_newline (t : Int) (picks : Nat → Nat) (h0 : 0 < t)
    (h1 : t ≤ 100) :
    ('\n' : Char) ∉ (generate_text t picks).data := by
  unfold generate_text pySliceTo
  rw [if_pos h1, if_neg (by omega : ¬ (t * 4 : Int) < 0)]
  intro hmem
  have hsub := List.take_subset _ _ hmem
  exact smallLoop_no_newline (t * 4) picks 1 _
    (paragraphs_no_newline _ (choice_paragraphs_mem _)) hsub

theorem generate_text_small_no_newline_witness :
    (0 : Int) < 50 ∧ (50 : Int) ≤ 100 ∧
      ('\n' : Char) ∉ (generate_text 50 (fun _ => 0)).data :=
  ⟨by decide, by decide,
    generate_text_small_no_newline 50 (fun _ => 0) (by decide) (by decide)⟩

/-- Claim C10: `generate_text` is a deterministic function of its target and
the random draws — two runs with the same target and the same pick stream
produce identical output; no other input influences the result. -/
theorem generate_text_deterministic (t : Int) (p1 p2 : Nat → Nat)
    (h : ∀ n, p1 n = p2 n) : generate_text t p1 = generate_text t p2 := by
  rw [funext h]

theorem generate_text_deterministic_witness :
    generate_text 50 (fun _ => 0) = generate_text 50 (fun _ => 0) :=
  generate_text_deterministic 50 (fun _ => 0) (fun _ => 0) (fun _ => rfl)


end GenerateTokens
